import Mathlib

/-!
Verification of the BOPES sampler (`bopes_sampler.py`): a shallow embedding of
the module's data model and control flow, together with theorems settling the
specification's claims about it.

Modelling conventions:
* Python floats (sweep points, energies, parameters) are modelled as `ℚ`.
* Python `None` is modelled by `Option`.
* Python insertion-ordered `dict`s are modelled as association lists where an
  insert with an existing key overwrites the value in place (keeping the key's
  original position), exactly as CPython dicts behave.
* Raised exceptions are modelled by `Except PyError`.
* The opaque external collaborators (the concrete solve, the extrapolation
  capability's mathematics, the qubit converter) are parameters of the model.
-/

namespace BOPES

/-- Variational parameter vectors (Python lists of floats). -/
abbrev Params := List ℚ

/-- The exception kinds relevant to this module. `qiskitNatureError` is the
configuration-error kind (`QiskitNatureError`); `valueError` is Python's
built-in `ValueError`; `indexError` models indexing an empty list. -/
inductive PyError where
  | qiskitNatureError (msg : String)
  | valueError (msg : String)
  | indexError
deriving DecidableEq

/-! ### Insertion-ordered dictionaries (CPython dict semantics) -/

/-- Insert into an insertion-ordered dictionary: an existing key keeps its
position and gets the new value; a new key is appended at the end. -/
def odInsert {κ α : Type} [DecidableEq κ] (k : κ) (v : α) : List (κ × α) → List (κ × α)
  | [] => [(k, v)]
  | kv :: rest => if k = kv.1 then (k, v) :: rest else kv :: odInsert k v rest

/-- Lookup in an insertion-ordered dictionary. -/
def odGet {κ α : Type} [DecidableEq κ] (k : κ) : List (κ × α) → Option α
  | [] => none
  | kv :: rest => if k = kv.1 then some kv.2 else odGet k rest

/-- The keys of an insertion-ordered dictionary, in order. -/
def odKeys {κ α : Type} (d : List (κ × α)) : List κ := d.map Prod.fst

/-- Fold a sequence of writes into an insertion-ordered dictionary. -/
def odOfWrites {κ α : Type} [DecidableEq κ] (l : List (κ × α)) : List (κ × α) :=
  l.foldl (fun acc kv => odInsert kv.1 kv.2 acc) []

/-- The value of the last write with key `k` in a write sequence, if any. -/
def lastWrite {κ α : Type} [DecidableEq κ] (k : κ) : List (κ × α) → Option α
  | [] => none
  | kv :: rest =>
    match lastWrite k rest with
    | some w => some w
    | none => if kv.1 = k then some kv.2 else none

/-- The key sequence of a write sequence with later duplicates dropped
(first-occurrence order), which is the key order of the resulting dict. -/
def firstOccur {κ : Type} [DecidableEq κ] : List κ → List κ
  | [] => []
  | k :: ks => k :: (firstOccur ks).filter (fun x => x ≠ k)

/-! ### The extrapolator object -/

/-- An `Extrapolator` instance as seen by the sampler: either a
`WindowExtrapolator` (which has a mutable `window` attribute) or some other
extrapolator kind. The extrapolation mathematics itself is opaque and is a
parameter of the run model. -/
inductive Extrapolator where
  | windowExt (window : Int)
  | plain
deriving DecidableEq

/-! ### prepare_problem (source lines 38-66) -/

/-- What `problem.second_q_ops()` returns: either a list of operators or a
mapping from property names to (possibly `None`) operators. The operator type
is abstract. -/
inductive SecondQOps (Op : Type) where
  | ops (l : List Op)
  | mapping (m : List (String × Option Op))
deriving DecidableEq

/-- Python's `dict.pop(k, None)`: returns the stored value (itself possibly
`None`) and removes the entry; returns `none` and leaves the dict unchanged
when the key is absent. -/
def dictPop {Op : Type} (k : String) : List (String × Option Op) → Option Op × List (String × Option Op)
  | [] => (none, [])
  | kv :: rest =>
    if k = kv.1 then (kv.2, rest)
    else
      let r := dictPop k rest
      (r.1, kv :: r.2)

/-- Shallow embedding of `prepare_problem` (lines 50-66): select the main
second-quantized operator (first element of a list, or the entry popped at
`mainName` from a mapping, raising `ValueError` when that entry is absent or
`None`), then pass it through the converter capability. The second component
of the result is the problem's operator collection after the call, exposing
the mapping path's removal side effect. -/
def prepare_problem {Op : Type} (convert : Op → Op) (mainName : String)
    (ops : SecondQOps Op) : Except PyError Op × SecondQOps Op :=
  match ops with
  | .ops [] => (.error .indexError, .ops [])
  | .ops (o :: rest) => (.ok (convert o), .ops (o :: rest))
  | .mapping m =>
    let r := dictPop mainName m
    match r.1 with
    | none =>
      (.error (.valueError "The main SecondQuantizedOp cannot be None."), .mapping r.2)
    | some op => (.ok (convert op), .mapping r.2)

/-! ### BOPESSampler.__init__ (source lines 72-139) -/

/-- The constructor arguments that the embedded `__init__` inspects. The
ground-state capability is represented by whether it is a `GroundStateSolver`
(versus a `MinimumEigensolverFactory`), whether its wrapped solver is a
`VariationalAlgorithm`, and that solver's current `initial_point`. -/
structure InitArgs where
  isGroundStateSolver : Bool
  solverVariational : Bool
  solverInitialPoint : Option Params
  bootstrap : Bool
  numBootstrap : Option Int
  extrapolator : Option Extrapolator
deriving DecidableEq

/-- The sampler fields observable after a successful `__init__`, plus the
state of the caller-supplied extrapolator object (whose `window` attribute the
constructor may mutate in place). -/
structure InitOutcome where
  bootstrap : Bool
  numBootstrap : Option Int
  extrapolator : Option Extrapolator
  initialPoint : Option Params
deriving DecidableEq

/-- Shallow embedding of `BOPESSampler.__init__` (lines 100-139). The
`num_bootstrap` validation (lines 117-132) runs only when an extrapolator is
supplied; `self._initial_point` is saved (lines 134-139) only when the
capability is a `GroundStateSolver` wrapping a `VariationalAlgorithm`. -/
def bopesInit (a : InitArgs) : Except PyError InitOutcome :=
  let savedInitialPoint :=
    if a.isGroundStateSolver && a.solverVariational then a.solverInitialPoint else none
  match a.extrapolator with
  | none =>
    .ok { bootstrap := a.bootstrap, numBootstrap := a.numBootstrap,
          extrapolator := none, initialPoint := savedInitialPoint }
  | some ext =>
    match a.numBootstrap with
    | none =>
      .ok { bootstrap := a.bootstrap, numBootstrap := some 2,
            extrapolator := some ext, initialPoint := savedInitialPoint }
    | some k =>
      if k ≥ 2 then
        match ext with
        | .windowExt _ =>
          .ok { bootstrap := a.bootstrap, numBootstrap := some k,
                extrapolator := some (.windowExt k), initialPoint := savedInitialPoint }
        | .plain =>
          .error (.qiskitNatureError
            "If num_bootstrap is at least 2 then the extrapolator must be a WindowExtrapolator")
      else
        .error (.qiskitNatureError
          "num_bootstrap must be None or an integer greater than or equal to 2")

/-! ### The warm-start computation (source lines 251-276) -/

/-- Minimum of a list of rationals with a seed value. -/
def minD : List ℚ → ℚ → ℚ
  | [], d => d
  | x :: xs, d => min x (minD xs d)

/-- Embedding of `np.argmin`: the index of the first occurrence of the minimum
of a list (`0` on the empty list, which `np.argmin` rejects). -/
def argminIdx : List ℚ → Nat
  | [] => 0
  | x :: xs =>
    match xs with
    | [] => 0
    | y :: rest => if x ≤ minD rest y then 0 else argminIdx xs + 1

/-- The Euclidean distance between two scalar sweep points (the 1-dimensional
instance of `np.linalg.norm` of the difference). -/
def absDist (a b : ℚ) : ℚ := |a - b|

/-- The result of one ground-state solve, as the sampler reads it:
`total_energies` and the reported `raw_result.optimal_point`. -/
structure EigenstateResult where
  totalEnergies : List ℚ
  optimalPoint : Params
deriving DecidableEq

/-- The run-time environment of a sweep: the facts about the resolved concrete
solver and configuration that the loop branches on, plus the two opaque
capabilities (the extrapolation mathematics and the solve itself, the latter a
function of the current perturbation point and the solver's current
`initial_point` field). -/
structure Env where
  isVariational : Bool
  bootstrap : Bool
  extrapolator : Option Extrapolator
  numBootstrap : Option Int
  extrapolate : ℚ → List (ℚ × Params) → List (ℚ × Params)
  solve : ℚ → Option Params → EigenstateResult

/-- The mutable state the loop threads between points: the resolved solver's
`initial_point` field and `self._points_optparams` (the point history). -/
structure RunState where
  initialPoint : Option Params
  history : List (ℚ × Params)
deriving DecidableEq

/-- What the warm-start block of `_run_single_point` did at one point:
nothing, a nearest-neighbor lookup, or a delegation to the extrapolator. The
payload is the value written to the solver's `initial_point` field. -/
inductive WSDecision where
  | skip
  | nn (v : Option Params)
  | extrap (v : Option Params)
deriving DecidableEq

/-- Everything observable about one `_run_single_point` call: the point, the
value of the solver's `initial_point` field at the moment of the solve call,
the solve's result, the warm-start decision taken, and the state afterwards. -/
structure StepOutput where
  point : ℚ
  usedInitialPoint : Option Params
  result : EigenstateResult
  decision : WSDecision
  st : RunState
deriving DecidableEq

/-- The `n_boot` computed at lines 256-260: with no extrapolator configured,
bootstrap over all previous points; otherwise the configured bootstrap
count (`self._num_bootstrap`, which `__init__` guarantees is set whenever an
extrapolator is configured). -/
def nBootOf (env : Env) (n : Nat) : Int :=
  match env.extrapolator with
  | none => (n : Int)
  | some _ => env.numBootstrap.getD 0

/-- The warm-start block of `_run_single_point` (lines 251-276): it may write
the solver's `initial_point` field and is otherwise pure. Returns the updated
state and a record of the decision taken. -/
def warmStart (env : Env) (st : RunState) (point : ℚ) : RunState × WSDecision :=
  if env.isVariational && env.bootstrap then
    let prevPoints := st.history.map Prod.fst
    let prevParams := st.history.map Prod.snd
    let nPP := prevPoints.length
    let nBoot : Int := nBootOf env nPP
    if prevPoints.isEmpty then (st, .skip)
    else if (nPP : Int) ≤ nBoot then
      let distances := prevPoints.map (fun pp => absDist point pp)
      let minIndex := argminIdx distances
      let newIp := prevParams.get? minIndex
      ({ st with initialPoint := newIp }, .nn newIp)
    else
      let paramSets := env.extrapolate point st.history
      let newIp := odGet point paramSets
      ({ st with initialPoint := newIp }, .extrap newIp)
  else (st, .skip)

/-- Shallow embedding of `BOPESSampler._run_single_point` (lines 219-295).
The driver re-validation is a no-op for supported drivers and is omitted; the
perturbation write targets the caller's molecule and does not feed back into
this state. In the factory path the concrete solver is re-obtained from the
factory before the solve; the factory materializes the solver for the (fixed)
problem of the sweep, so the solver state threads through unchanged and both
paths reduce to the same step. -/
def runSinglePoint (env : Env) (st : RunState) (point : ℚ) : StepOutput :=
  let wsd := warmStart env st point
  let result := env.solve point wsd.1.initialPoint
  let st2 :=
    if env.isVariational then
      { wsd.1 with history := odInsert point result.optimalPoint wsd.1.history }
    else wsd.1
  { point := point, usedInitialPoint := wsd.1.initialPoint, result := result,
    decision := wsd.2, st := st2 }

/-- The state at the top of `_run_points` (lines 206-209): when the resolved
solver is variational the history is cleared and the solver's `initial_point`
is restored to the sampler's saved `self._initial_point`. -/
def startState (env : Env) (saved : Option Params) (st : RunState) : RunState :=
  if env.isVariational then { initialPoint := saved, history := [] } else st

/-- The per-point iteration of `_run_points` (lines 212-215), returning every
step's observables and the final state. -/
def runPointsAux (env : Env) (st : RunState) : List ℚ → List StepOutput × RunState
  | [] => ([], st)
  | p :: ps =>
    let o := runSinglePoint env st p
    let r := runPointsAux env o.st ps
    (o :: r.1, r.2)

/-- A whole sweep's observables. -/
structure RunOutput where
  steps : List StepOutput
  final : RunState

/-- Shallow embedding of `BOPESSampler._run_points` (lines 197-217). -/
def runPoints (env : Env) (saved : Option Params) (st : RunState) (pts : List ℚ) : RunOutput :=
  let r := runPointsAux env (startState env saved st) pts
  { steps := r.1, final := r.2 }

/-- The evaluation sequence of a sweep: one `(point, result)` pair per
evaluation, in evaluation order (duplicates included). -/
def traceOf (out : RunOutput) : List (ℚ × EigenstateResult) :=
  out.steps.map (fun o => (o.point, o.result))

/-- The `raw_results` dictionary built by `_run_points` (line 215): the
evaluation sequence folded into an insertion-ordered dictionary. -/
def rawOf (out : RunOutput) : List (ℚ × EigenstateResult) :=
  odOfWrites (traceOf out)

/-- The `BOPESSamplerResult` view: ordered points, parallel energies, and the
raw result map. -/
structure BOPESSamplerResult where
  points : List ℚ
  energies : List ℚ
  rawResults : List (ℚ × EigenstateResult)
deriving DecidableEq

/-- Shallow embedding of `BOPESSampler.sample` (lines 141-195) after its
driver/factory validation: run the points, then aggregate, taking the point
sequence from the raw map's key order and each energy from the corresponding
result's first listed total energy (`total_energies[0]`; results with an empty
energy list would raise in Python and are mapped to `0` here, guarded by a
nonemptiness hypothesis wherever energies are claimed). -/
def sample (env : Env) (saved : Option Params) (st : RunState) (pts : List ℚ) :
    BOPESSamplerResult × RunState :=
  let out := runPoints env saved st pts
  let raw := rawOf out
  ({ points := odKeys raw,
     energies := raw.map (fun kv => kv.2.totalEnergies.headD 0),
     rawResults := raw }, out.final)

/-! ### The warm-start strategy as the specification words it -/

/-- Nearest-neighbor selection as the spec words it: scan the history keeping
the entry whose key is strictly closer to the query point than the best so
far, so ties keep the earlier (insertion-order) entry. -/
def nnFold (point : ℚ) : (ℚ × Params) → List (ℚ × Params) → ℚ × Params
  | best, [] => best
  | best, kv :: rest =>
    if absDist point kv.1 < absDist point best.1 then nnFold point kv rest
    else nnFold point best rest

/-- Warm-start strategy following the specification text (section 4.2):
`none` when the history is empty (no initial point is supplied); otherwise
`some` of the guess, which is the nearest neighbor's stored vector when the
history size is at most the window, and the extrapolation capability's output
for the point when it exceeds the window. -/
def initialPointSpec (env : Env) (point : ℚ) (history : List (ℚ × Params)) :
    Option (Option Params) :=
  match history with
  | [] => none
  | kv :: rest =>
    let n := history.length
    let window : Int := nBootOf env n
    if (n : Int) ≤ window then some (some (nnFold point kv rest).2)
    else some (odGet point (env.extrapolate point history))

/-! ### Small helpers and concrete instances used by examples and witnesses -/

/-- Whether an extrapolator instance is a `WindowExtrapolator`. -/
def Extrapolator.isWindow : Extrapolator → Bool
  | .windowExt _ => true
  | .plain => false

/-- Remove the entry with the given key (Python dict deletion). -/
def dropKey {Op : Type} (k : String) : List (String × Option Op) → List (String × Option Op)
  | [] => []
  | kv :: rest => if k = kv.1 then rest else kv :: dropKey k rest

/-- Whether a computation failed with the configuration-error kind
(`QiskitNatureError`). -/
def isConfigError {α : Type} : Except PyError α → Bool
  | .error (.qiskitNatureError _) => true
  | _ => false

/-- A variational bootstrap-enabled environment with no extrapolator, whose
solve returns the evaluated point as both energy and optimal parameter. -/
def envNoExt : Env where
  isVariational := true
  bootstrap := true
  extrapolator := none
  numBootstrap := none
  extrapolate := fun _ h => h
  solve := fun p _ => { totalEnergies := [p], optimalPoint := [p] }

/-- A variational bootstrap-enabled environment with a window-2
`WindowExtrapolator` (the state after `__init__` with that extrapolator). -/
def envWin2 : Env :=
  { envNoExt with extrapolator := some (.windowExt 2), numBootstrap := some 2 }

/-- A non-variational environment. -/
def envPlain : Env :=
  { envNoExt with isVariational := false }

/-- A run state holding the specification's example history
`{1.0: [a], 3.0: [b]}` with `a = 5`, `b = 7`. -/
def stH : RunState := { initialPoint := none, history := [(1, [5]), (3, [7])] }

/-- A run state with two history points, at a window of 2 (the 3rd point of a
sweep). -/
def stH2 : RunState := { initialPoint := none, history := [(1, [1]), (2, [2])] }

/-- A run state with three history points, beyond a window of 2 (the 4th
point of a sweep). -/
def stH3 : RunState := { initialPoint := none, history := [(1, [1]), (2, [2]), (3, [3])] }

/-- A variational environment whose solve reports a different energy when a
warm-start initial point was supplied, making repeated evaluations of the
same point distinguishable. -/
def envDup : Env :=
  { envNoExt with
    solve := fun p ip =>
      { totalEnergies := [p + (if ip.isSome then 100 else 0)], optimalPoint := [p] } }

/-- Constructor arguments with a non-window extrapolator and an explicit
bootstrap number of 1. -/
def argsPlain1 : InitArgs where
  isGroundStateSolver := true
  solverVariational := false
  solverInitialPoint := none
  bootstrap := true
  numBootstrap := some 1
  extrapolator := some .plain

/-- Constructor arguments with a `WindowExtrapolator` whose window is 5 and
an explicit bootstrap number of 3. -/
def argsWin : InitArgs :=
  { argsPlain1 with numBootstrap := some 3, extrapolator := some (.windowExt 5) }

/-- Constructor arguments with a `WindowExtrapolator` whose window is 5 and
no explicit bootstrap number. -/
def argsWinNone : InitArgs :=
  { argsPlain1 with numBootstrap := none, extrapolator := some (.windowExt 5) }

/-- Constructor arguments with no extrapolator and an explicit bootstrap
number of 1. -/
def argsNone1 : InitArgs := { argsPlain1 with extrapolator := none }

/-- Constructor arguments with no extrapolator and an explicit bootstrap
number of 3. -/
def argsNone3 : InitArgs :=
  { argsPlain1 with extrapolator := none, numBootstrap := some 3 }

/-! ### Lemmas about insertion-ordered dictionaries -/

theorem odGet_odInsert_self {κ α : Type} [DecidableEq κ] (k : κ) (v : α) (d : List (κ × α)) :
    odGet k (odInsert k v d) = some v := by
  induction d with
  | nil => simp [odInsert, odGet]
  | cons kv rest ih =>
    by_cases h : k = kv.1
    · simp [odInsert, odGet, h]
    · simp [odInsert, odGet, h, ih]

theorem odGet_odInsert_ne {κ α : Type} [DecidableEq κ] {k k' : κ} (v : α) (d : List (κ × α))
    (h : k ≠ k') : odGet k (odInsert k' v d) = odGet k d := by
  induction d with
  | nil => simp [odInsert, odGet, h]
  | cons kv rest ih =>
    by_cases h' : k' = kv.1
    · subst h'
      simp [odInsert, odGet, h]
    · by_cases h'' : k = kv.1
      · simp [odInsert, odGet, h', h'']
      · simp [odInsert, odGet, h', h'', ih]

theorem odKeys_odInsert {κ α : Type} [DecidableEq κ] (k : κ) (v : α) (d : List (κ × α)) :
    odKeys (odInsert k v d) = if k ∈ odKeys d then odKeys d else odKeys d ++ [k] := by
  induction d with
  | nil => simp [odInsert, odKeys]
  | cons kv rest ih =>
    by_cases h : k = kv.1
    · subst h
      simp [odInsert, odKeys]
    · simp only [odInsert, if_neg h, odKeys, List.map_cons, List.mem_cons]
      simp only [odKeys] at ih
      rw [ih]
      by_cases hm : k ∈ rest.map Prod.fst
      · simp [hm, h]
      · simp [hm, h]

theorem odGet_foldl_odInsert {κ α : Type} [DecidableEq κ] (k : κ)
    (l : List (κ × α)) (acc : List (κ × α)) :
    odGet k (l.foldl (fun a kv => odInsert kv.1 kv.2 a) acc) =
      match lastWrite k l with
      | some w => some w
      | none => odGet k acc := by
  induction l generalizing acc with
  | nil => simp [lastWrite]
  | cons kv rest ih =>
    simp only [List.foldl_cons, lastWrite]
    rw [ih]
    cases hrest : lastWrite k rest with
    | some w => simp
    | none =>
      simp only
      by_cases h : kv.1 = k
      · subst h
        simp [odGet_odInsert_self]
      · have h' : k ≠ kv.1 := fun hk => h hk.symm
        simp [h, odGet_odInsert_ne kv.2 acc h']

theorem odGet_odOfWrites {κ α : Type} [DecidableEq κ] (k : κ) (l : List (κ × α)) :
    odGet k (odOfWrites l) = lastWrite k l := by
  rw [odOfWrites, odGet_foldl_odInsert]
  cases lastWrite k l <;> simp [odGet]

theorem lastWrite_map_snd {κ α β : Type} [DecidableEq κ] (k : κ) (f : α → β)
    (l : List (κ × α)) :
    lastWrite k (l.map (fun kv => (kv.1, f kv.2))) = (lastWrite k l).map f := by
  induction l with
  | nil => simp [lastWrite]
  | cons kv rest ih =>
    simp only [List.map_cons, lastWrite, ih]
    cases lastWrite k rest with
    | some w => simp
    | none =>
      by_cases h : kv.1 = k <;> simp [h]

theorem odKeys_foldl_odInsert {κ α : Type} [DecidableEq κ]
    (l : List (κ × α)) (acc : List (κ × α)) :
    odKeys (l.foldl (fun a kv => odInsert kv.1 kv.2 a) acc) =
      odKeys acc ++ (firstOccur (l.map Prod.fst)).filter (fun x => decide (x ∉ odKeys acc)) := by
  induction l generalizing acc with
  | nil => simp [firstOccur]
  | cons kv rest ih =>
    simp only [List.foldl_cons, List.map_cons, firstOccur]
    rw [ih, odKeys_odInsert]
    by_cases hm : kv.1 ∈ odKeys acc
    · simp only [if_pos hm, List.filter_cons]
      have hd : decide (kv.1 ∉ odKeys acc) = false := by simp [hm]
      rw [hd]
      simp only [Bool.false_eq_true, if_neg (by simp : ¬False)]
      congr 1
      rw [List.filter_filter]
      apply List.filter_congr
      intro x _
      by_cases hx : x ∈ odKeys acc
      · simp [hx]
      · have : x ≠ kv.1 := fun he => hx (he ▸ hm)
        simp [hx, this]
    · simp only [if_neg hm, List.filter_cons]
      have hd : decide (kv.1 ∉ odKeys acc) = true := by simp [hm]
      rw [hd]
      simp only [if_pos trivial]
      rw [List.append_assoc, List.singleton_append]
      congr 2
      rw [List.filter_filter]
      apply List.filter_congr
      intro x _
      by_cases hx : x = kv.1
      · subst hx
        simp
      · by_cases hacc : x ∈ odKeys acc <;> simp [hx, hacc]

theorem odKeys_odOfWrites {κ α : Type} [DecidableEq κ] (l : List (κ × α)) :
    odKeys (odOfWrites l) = firstOccur (l.map Prod.fst) := by
  rw [odOfWrites, odKeys_foldl_odInsert]
  simp only [odKeys, List.map_nil, List.nil_append]
  apply Eq.symm
  apply Eq.trans (b := (firstOccur (l.map Prod.fst)).filter (fun _ => true))
  · simp
  · apply List.filter_congr
    intro x _
    simp [odKeys]

theorem firstOccur_nodup {κ : Type} [DecidableEq κ] (l : List κ) : (firstOccur l).Nodup := by
  induction l with
  | nil => simp [firstOccur]
  | cons k ks ih =>
    simp only [firstOccur, List.nodup_cons]
    constructor
    · intro hmem
      have := List.of_mem_filter hmem
      simp at this
    · exact ih.filter _

theorem odGet_get_of_nodup {κ α : Type} [DecidableEq κ] (d : List (κ × α))
    (hn : (odKeys d).Nodup) (i : Nat) (h : i < d.length) :
    odGet (d.get ⟨i, h⟩).1 d = some (d.get ⟨i, h⟩).2 := by
  induction d generalizing i with
  | nil => simp at h
  | cons kv rest ih =>
    cases i with
    | zero => simp [odGet]
    | succ j =>
      have hj : j < rest.length := by simpa using h
      simp only [odKeys, List.map_cons, List.nodup_cons] at hn
      have hne : (rest.get ⟨j, hj⟩).1 ≠ kv.1 := by
        intro he
        exact hn.1 (he ▸ List.mem_map_of_mem Prod.fst (rest.get_mem j hj))
      simp only [List.get_cons_succ, odGet]
      rw [if_neg hne]
      exact ih hn.2 j hj

/-! ### Lemmas about minD and argminIdx -/

theorem minD_le_seed (l : List ℚ) (d : ℚ) : minD l d ≤ d := by
  induction l with
  | nil => simp [minD]
  | cons x xs ih => simp only [minD]; exact le_trans (min_le_right _ _) ih

theorem minD_le_mem {x : ℚ} (l : List ℚ) (d : ℚ) (h : x ∈ l) : minD l d ≤ x := by
  induction l with
  | nil => simp at h
  | cons y ys ih =>
    rcases List.mem_cons.mp h with h' | h'
    · subst h'; exact min_le_left _ _
    · exact le_trans (min_le_right _ _) (ih h')

theorem le_minD_iff {c : ℚ} (l : List ℚ) (d : ℚ) :
    c ≤ minD l d ↔ c ≤ d ∧ ∀ x ∈ l, c ≤ x := by
  induction l with
  | nil => simp [minD]
  | cons y ys ih =>
    simp only [minD, le_min_iff, ih, List.mem_cons]
    constructor
    · rintro ⟨hy, hd, hall⟩
      exact ⟨hd, fun x hx => hx.elim (fun he => he ▸ hy) (hall x)⟩
    · rintro ⟨hd, hall⟩
      exact ⟨hall y (Or.inl rfl), hd, fun x hx => hall x (Or.inr hx)⟩

theorem minD_mem_or (l : List ℚ) (d : ℚ) : minD l d = d ∨ minD l d ∈ l := by
  induction l with
  | nil => simp [minD]
  | cons y ys ih =>
    simp only [minD]
    rcases le_total y (minD ys d) with h | h
    · right; simp [min_eq_left h]
    · rw [min_eq_right h]
      rcases ih with h' | h'
      · left; exact h'
      · right; exact List.mem_cons_of_mem _ h'

theorem argminIdx_lt : ∀ (l : List ℚ), l ≠ [] → argminIdx l < l.length
  | [], h => absurd rfl h
  | [_], _ => by simp [argminIdx]
  | x :: y :: rest, _ => by
    simp only [argminIdx]
    by_cases hc : x ≤ minD rest y
    · simp [hc]
    · rw [if_neg hc]
      have := argminIdx_lt (y :: rest) (by simp)
      simpa [Nat.succ_lt_succ_iff] using this

theorem argminIdx_le : ∀ (l : List ℚ) (j : Nat), j < l.length →
    l.getD (argminIdx l) 0 ≤ l.getD j 0
  | [], j, hj => by simp at hj
  | [x], j, hj => by
    have : j = 0 := by simpa using Nat.lt_one_iff.mp (by simpa using hj)
    subst this
    simp [argminIdx]
  | x :: y :: rest, j, hj => by
    have hmemle : ∀ z ∈ y :: rest, (y :: rest).getD (argminIdx (y :: rest)) 0 ≤ z := by
      intro z hz
      obtain ⟨n, rfl⟩ := List.mem_iff_get.mp hz
      have := argminIdx_le (y :: rest) n n.isLt
      rwa [List.getD_eq_get _ _ n.isLt] at this
    by_cases hc : x ≤ minD rest y
    · cases j with
      | zero => simp [argminIdx, hc]
      | succ j' =>
        have hj' : j' < (y :: rest).length := by simpa using hj
        have hmem : (y :: rest).getD j' 0 ∈ y :: rest := by
          rw [List.getD_eq_get _ _ hj']
          exact List.get_mem _ _ _
        have h2 : minD rest y ≤ (y :: rest).getD j' 0 := by
          rcases List.mem_cons.mp hmem with h | h
          · rw [h]; exact minD_le_seed rest y
          · exact minD_le_mem _ _ h
        simp only [argminIdx, if_pos hc, List.getD_cons_zero, List.getD_cons_succ]
        exact le_trans hc h2
    · have htm : (y :: rest).getD (argminIdx (y :: rest)) 0 ≤ minD rest y := by
        rcases minD_mem_or rest y with h | h
        · rw [h]; exact hmemle y (List.mem_cons_self _ _)
        · exact hmemle _ (List.mem_cons_of_mem _ h)
      have hlt : minD rest y < x := lt_of_not_le hc
      cases j with
      | zero =>
        simp only [argminIdx, if_neg hc, List.getD_cons_succ, List.getD_cons_zero]
        exact le_of_lt (lt_of_le_of_lt htm hlt)
      | succ j' =>
        have hj' : j' < (y :: rest).length := by simpa using hj
        simp only [argminIdx, if_neg hc, List.getD_cons_succ]
        exact argminIdx_le (y :: rest) j' hj'

theorem argminIdx_first : ∀ (l : List ℚ) (j : Nat), j < argminIdx l →
    l.getD (argminIdx l) 0 < l.getD j 0
  | [], j, hj => by simp [argminIdx] at hj
  | [_], j, hj => by simp [argminIdx] at hj
  | x :: y :: rest, j, hj => by
    have hmemle : ∀ z ∈ y :: rest, (y :: rest).getD (argminIdx (y :: rest)) 0 ≤ z := by
      intro z hz
      obtain ⟨n, rfl⟩ := List.mem_iff_get.mp hz
      have := argminIdx_le (y :: rest) n n.isLt
      rwa [List.getD_eq_get _ _ n.isLt] at this
    by_cases hc : x ≤ minD rest y
    · simp [argminIdx, if_pos hc] at hj
    · have htm : (y :: rest).getD (argminIdx (y :: rest)) 0 ≤ minD rest y := by
        rcases minD_mem_or rest y with h | h
        · rw [h]; exact hmemle y (List.mem_cons_self _ _)
        · exact hmemle _ (List.mem_cons_of_mem _ h)
      have hlt : minD rest y < x := lt_of_not_le hc
      simp only [argminIdx, if_neg hc] at hj ⊢
      cases j with
      | zero =>
        simp only [List.getD_cons_succ, List.getD_cons_zero]
        exact lt_of_le_of_lt htm hlt
      | succ j' =>
        simp only [List.getD_cons_succ]
        exact argminIdx_first (y :: rest) j' (Nat.lt_of_succ_lt_succ hj)

theorem argminIdx_single (x : ℚ) : argminIdx [x] = 0 := rfl

theorem argminIdx_cons2 (x y : ℚ) (rest : List ℚ) :
    argminIdx (x :: y :: rest) = if x ≤ minD rest y then 0 else argminIdx (y :: rest) + 1 := rfl

/-- The source's nearest-neighbor selection (argmin over the distance array,
then indexing the parameter list) agrees with the specification's stable
scan-for-the-closest-key description. -/
theorem nnFold_eq_argmin (point : ℚ) :
    ∀ (l : List (ℚ × Params)) (b : ℚ × Params),
      nnFold point b l =
        (b :: l).getD (argminIdx ((b :: l).map (fun kv => absDist point kv.1))) (0, []) := by
  intro l
  induction l with
  | nil =>
    intro b
    simp [nnFold, argminIdx_single]
  | cons kv rest ih =>
    intro b
    simp only [List.map_cons, argminIdx_cons2]
    by_cases hA : absDist point kv.1 < absDist point b.1
    · have hmr : minD (rest.map (fun kv => absDist point kv.1)) (absDist point kv.1) ≤ absDist point kv.1 :=
        minD_le_seed _ _
      have hcond : ¬(absDist point b.1 ≤ minD (rest.map (fun kv => absDist point kv.1)) (absDist point kv.1)) :=
        not_le.mpr (lt_of_le_of_lt hmr hA)
      rw [if_neg hcond, List.getD_cons_succ]
      simp only [nnFold, if_pos hA]
      have := ih kv
      simpa using this
    · have hBA : absDist point b.1 ≤ absDist point kv.1 := le_of_not_lt hA
      simp only [nnFold, if_neg hA]
      cases rest with
      | nil =>
        simp only [List.map_nil]
        have hc : absDist point b.1 ≤ minD ([] : List ℚ) (absDist point kv.1) := by
          simpa [minD] using hBA
        rw [if_pos hc]
        simp [nnFold]
      | cons r rs =>
        simp only [List.map_cons] at *
        by_cases hB1 :
            absDist point b.1 ≤ minD (absDist point r.1 :: rs.map (fun kv => absDist point kv.1)) (absDist point kv.1)
        · obtain ⟨hbk, hall⟩ := (le_minD_iff _ _).mp hB1
          have hside : absDist point b.1 ≤ minD (rs.map (fun kv => absDist point kv.1)) (absDist point r.1) :=
            (le_minD_iff _ _).mpr
              ⟨hall _ (List.mem_cons_self _ _), fun x hx => hall x (List.mem_cons_of_mem _ hx)⟩
          rw [if_pos hB1, List.getD_cons_zero, ih b]
          simp only [List.map_cons, argminIdx_cons2]
          rw [if_pos hside, List.getD_cons_zero]
        · have hnk : ¬(absDist point kv.1 ≤ minD (rs.map (fun kv => absDist point kv.1)) (absDist point r.1)) := by
            intro hk
            apply hB1
            refine (le_minD_iff _ _).mpr ⟨hBA, fun x hx => ?_⟩
            rcases List.mem_cons.mp hx with h | h
            · exact hBA.trans (hk.trans ((h ▸ minD_le_seed _ _ : minD _ _ ≤ x)))
            · exact hBA.trans (hk.trans (minD_le_mem _ _ h))
          have hnb : ¬(absDist point b.1 ≤ minD (rs.map (fun kv => absDist point kv.1)) (absDist point r.1)) := by
            intro hd
            apply hB1
            refine (le_minD_iff _ _).mpr ⟨hBA, fun x hx => ?_⟩
            rcases List.mem_cons.mp hx with h | h
            · exact hd.trans (h ▸ minD_le_seed _ _)
            · exact hd.trans (minD_le_mem _ _ h)
          rw [if_neg hB1, List.getD_cons_succ, argminIdx_cons2, if_neg hnk,
            List.getD_cons_succ, ih b]
          simp only [List.map_cons, argminIdx_cons2]
          rw [if_neg hnb, List.getD_cons_succ]

/-! ### Lemmas about the warm-start block -/

theorem warmStart_history (env : Env) (st : RunState) (point : ℚ) :
    (warmStart env st point).1.history = st.history := by
  unfold warmStart
  split
  · dsimp only
    split
    · rfl
    · split <;> rfl
  · rfl

theorem warmStart_of_guard_false (env : Env) (st : RunState) (point : ℚ)
    (h : (env.isVariational && env.bootstrap) = false) :
    warmStart env st point = (st, .skip) := by
  unfold warmStart
  rw [h]
  simp

theorem warmStart_of_empty (env : Env) (st : RunState) (point : ℚ)
    (h : st.history = []) : warmStart env st point = (st, .skip) := by
  unfold warmStart
  split
  · simp [h]
  · rfl

theorem nnChoice_eq_nnFold (point : ℚ) (kv : ℚ × Params) (rest : List (ℚ × Params)) :
    ((kv :: rest).map Prod.snd).get?
        (argminIdx (((kv :: rest).map Prod.fst).map (fun pp => absDist point pp))) =
      some (nnFold point kv rest).2 := by
  have hmapmap : ((kv :: rest).map Prod.fst).map (fun pp => absDist point pp) =
      (kv :: rest).map (fun kv => absDist point kv.1) := by
    rw [List.map_map]
    rfl
  rw [hmapmap]
  have hi : argminIdx ((kv :: rest).map (fun kv => absDist point kv.1)) < (kv :: rest).length := by
    have := argminIdx_lt ((kv :: rest).map (fun kv => absDist point kv.1)) (by simp)
    simpa using this
  rw [List.get?_map, List.get?_eq_get hi, nnFold_eq_argmin point rest kv,
    List.getD_eq_get _ _ hi]
  simp

theorem warmStart_nn (env : Env) (st : RunState) (point : ℚ)
    (hv : env.isVariational = true) (hb : env.bootstrap = true)
    (kv : ℚ × Params) (rest : List (ℚ × Params)) (hh : st.history = kv :: rest)
    (hw : (st.history.length : Int) ≤ nBootOf env st.history.length) :
    warmStart env st point =
      ({ st with initialPoint := some (nnFold point kv rest).2 },
        .nn (some (nnFold point kv rest).2)) := by
  obtain ⟨ip, hist⟩ := st
  simp only at hh hw
  subst hh
  unfold warmStart
  rw [hv, hb]
  simp only [Bool.and_self, if_true]
  rw [if_neg (by simp : ¬(((kv :: rest).map Prod.fst).isEmpty = true))]
  rw [List.length_map, if_pos hw, nnChoice_eq_nnFold]

theorem warmStart_extrap (env : Env) (st : RunState) (point : ℚ)
    (hv : env.isVariational = true) (hb : env.bootstrap = true)
    (hne : st.history ≠ [])
    (hw : ¬((st.history.length : Int) ≤ nBootOf env st.history.length)) :
    warmStart env st point =
      ({ st with initialPoint := odGet point (env.extrapolate point st.history) },
        .extrap (odGet point (env.extrapolate point st.history))) := by
  obtain ⟨ip, hist⟩ := st
  simp only at hne hw
  cases hist with
  | nil => exact absurd rfl hne
  | cons kv rest =>
    unfold warmStart
    rw [hv, hb]
    simp only [Bool.and_self, if_true]
    rw [if_neg (by simp : ¬(((kv :: rest).map Prod.fst).isEmpty = true))]
    rw [List.length_map, if_neg hw]

/-! ### Lemmas about the per-point step and the sweep loop -/

theorem runSinglePoint_nonvar (env : Env) (st : RunState) (point : ℚ)
    (h : env.isVariational = false) :
    runSinglePoint env st point =
      { point := point, usedInitialPoint := st.initialPoint,
        result := env.solve point st.initialPoint, decision := .skip, st := st } := by
  unfold runSinglePoint
  rw [warmStart_of_guard_false env st point (by simp [h])]
  simp [h]

theorem runSinglePoint_history_var (env : Env) (st : RunState) (point : ℚ)
    (h : env.isVariational = true) :
    (runSinglePoint env st point).st.history =
      odInsert point (runSinglePoint env st point).result.optimalPoint st.history := by
  unfold runSinglePoint
  simp only [h, if_true]
  rw [warmStart_history]

theorem runSinglePoint_usedInitialPoint (env : Env) (st : RunState) (point : ℚ)
    (hv : env.isVariational = true) (hb : env.bootstrap = true) :
    (runSinglePoint env st point).usedInitialPoint =
      match initialPointSpec env point st.history with
      | none => st.initialPoint
      | some v => v := by
  cases hh : st.history with
  | nil =>
    unfold runSinglePoint
    rw [warmStart_of_empty env st point hh]
    simp [initialPointSpec, hh]
  | cons kv rest =>
    by_cases hw : (st.history.length : Int) ≤ nBootOf env st.history.length
    · unfold runSinglePoint
      rw [warmStart_nn env st point hv hb kv rest hh hw]
      rw [hh] at hw ⊢
      simp only [initialPointSpec]
      rw [if_pos hw]
    · unfold runSinglePoint
      rw [warmStart_extrap env st point hv hb (by rw [hh]; simp) hw]
      rw [hh] at hw ⊢
      simp only [initialPointSpec]
      rw [if_neg hw]

theorem runSinglePoint_point (env : Env) (st : RunState) (point : ℚ) :
    (runSinglePoint env st point).point = point := rfl

theorem runPointsAux_points (env : Env) :
    ∀ (pts : List ℚ) (st : RunState),
      (runPointsAux env st pts).1.map (fun o => o.point) = pts := by
  intro pts
  induction pts with
  | nil => intro st; simp [runPointsAux]
  | cons p ps ih =>
    intro st
    simp only [runPointsAux, List.map_cons, ih, runSinglePoint_point]

theorem runPointsAux_nonvar (env : Env) (h : env.isVariational = false) :
    ∀ (pts : List ℚ) (st : RunState),
      (runPointsAux env st pts).2 = st ∧
        ∀ o ∈ (runPointsAux env st pts).1, o.decision = .skip ∧ o.st = st := by
  intro pts
  induction pts with
  | nil => intro st; simp [runPointsAux]
  | cons p ps ih =>
    intro st
    have hstep := runSinglePoint_nonvar env st p h
    simp only [runPointsAux, hstep]
    constructor
    · exact (ih st).1
    · intro o ho
      rcases List.mem_cons.mp ho with ho | ho
      · subst ho; exact ⟨rfl, rfl⟩
      · exact (ih st).2 o ho

theorem runPointsAux_var_history (env : Env) (h : env.isVariational = true) :
    ∀ (pts : List ℚ) (st : RunState),
      (runPointsAux env st pts).2.history =
        ((runPointsAux env st pts).1.map (fun o => (o.point, o.result.optimalPoint))).foldl
          (fun a kv => odInsert kv.1 kv.2 a) st.history := by
  intro pts
  induction pts with
  | nil => intro st; simp [runPointsAux]
  | cons p ps ih =>
    intro st
    simp only [runPointsAux, List.map_cons, List.foldl_cons]
    rw [ih, runSinglePoint_point, runSinglePoint_history_var env st p h]

/-! ### Lemmas about dictPop -/

theorem dictPop_fst {Op : Type} (k : String) :
    ∀ m : List (String × Option Op), (dictPop k m).1 = (odGet k m).join := by
  intro m
  induction m with
  | nil => simp [dictPop, odGet]
  | cons kv rest ih =>
    by_cases h : k = kv.1
    · simp [dictPop, odGet, h]
    · simp [dictPop, odGet, h, ih]

theorem dictPop_snd {Op : Type} (k : String) :
    ∀ m : List (String × Option Op), (dictPop k m).2 = dropKey k m := by
  intro m
  induction m with
  | nil => simp [dictPop, dropKey]
  | cons kv rest ih =>
    by_cases h : k = kv.1
    · simp [dictPop, dropKey, h]
    · simp [dictPop, dropKey, h, ih]

theorem runSinglePoint_decision (env : Env) (st : RunState) (point : ℚ) :
    (runSinglePoint env st point).decision = (warmStart env st point).2 := rfl

theorem runSinglePoint_used (env : Env) (st : RunState) (point : ℚ) :
    (runSinglePoint env st point).usedInitialPoint =
      (warmStart env st point).1.initialPoint := rfl

theorem getD_dist (point : ℚ) (l : List (ℚ × Params)) (j : Nat) (hj : j < l.length) :
    (l.map (fun kv => absDist point kv.1)).getD j 0 = absDist point (l.get ⟨j, hj⟩).1 := by
  rw [List.getD_eq_get _ _ (by simpa using hj)]
  simp

/-! ### The claims -/

/-- C1 counterexample: constructing a sampler with an explicit
`num_bootstrap = 1` (below 2) but no extrapolator succeeds with no error at
all, and so does `num_bootstrap = 3` with no extrapolator, contradicting the
claim that both constructions raise a `ConfigurationError` at construction
time. -/
theorem c1_no_error_without_extrapolator :
    bopesInit argsNone1 =
      Except.ok
        { bootstrap := true, numBootstrap := some 1, extrapolator := none,
          initialPoint := none } ∧
    bopesInit argsNone3 =
      Except.ok
        { bootstrap := true, numBootstrap := some 3, extrapolator := none,
          initialPoint := none } :=
  ⟨rfl, rfl⟩

/-- C1 amended: the construction-time validation of an explicit
`num_bootstrap = k` applies only when an extrapolator is supplied. With an
extrapolator and `k < 2` the constructor raises the configuration error; with
an extrapolator that is not a `WindowExtrapolator` and `k ≥ 2` it raises the
configuration error; with no extrapolator, any explicit `k` is accepted
without validation. -/
theorem c1_fail_fast_validation (a : InitArgs) (k : Int) (hk : a.numBootstrap = some k) :
    (∀ e, a.extrapolator = some e → k < 2 →
      ∃ m, bopesInit a = .error (.qiskitNatureError m)) ∧
    (∀ e, a.extrapolator = some e → 2 ≤ k → e.isWindow = false →
      ∃ m, bopesInit a = .error (.qiskitNatureError m)) ∧
    (a.extrapolator = none →
      ∃ o, bopesInit a = .ok o ∧ o.numBootstrap = some k) := by
  refine ⟨?_, ?_, ?_⟩
  · intro e he hlt
    simp only [bopesInit, he, hk]
    rw [if_neg (not_le.mpr hlt)]
    exact ⟨_, rfl⟩
  · intro e he h2 hwin
    cases e with
    | windowExt w => simp [Extrapolator.isWindow] at hwin
    | plain =>
      simp only [bopesInit, he, hk]
      rw [if_pos h2]
      exact ⟨_, rfl⟩
  · intro he
    simp only [bopesInit, he, hk]
    exact ⟨_, rfl, rfl⟩

/-- C1 witness: the amended validation at a concrete non-window extrapolator
with `num_bootstrap = 1`. -/
theorem c1_fail_fast_validation_witness :
    argsPlain1.numBootstrap = some 1 ∧
    ((∀ e, argsPlain1.extrapolator = some e → (1 : Int) < 2 →
      ∃ m, bopesInit argsPlain1 = .error (.qiskitNatureError m)) ∧
    (∀ e, argsPlain1.extrapolator = some e → 2 ≤ (1 : Int) → e.isWindow = false →
      ∃ m, bopesInit argsPlain1 = .error (.qiskitNatureError m)) ∧
    (argsPlain1.extrapolator = none →
      ∃ o, bopesInit argsPlain1 = .ok o ∧ o.numBootstrap = some 1)) :=
  ⟨rfl, c1_fail_fast_validation argsPlain1 1 rfl⟩

/-- C9 counterexample: preparing a problem whose operator mapping lacks the
main property name fails with `ValueError`, not with the configuration-error
kind (`QiskitNatureError`) the claim names; likewise when the main entry maps
to `None`. -/
theorem c9_counterexample :
    (@prepare_problem Unit id "ElectronicEnergy" (.mapping [])).1 =
      .error (.valueError "The main SecondQuantizedOp cannot be None.") ∧
    isConfigError (@prepare_problem Unit id "ElectronicEnergy" (.mapping [])).1 = false ∧
    (@prepare_problem Unit id "ElectronicEnergy"
        (.mapping [("ElectronicEnergy", none)])).1 =
      .error (.valueError "The main SecondQuantizedOp cannot be None.") ∧
    isConfigError (@prepare_problem Unit id "ElectronicEnergy"
        (.mapping [("ElectronicEnergy", none)])).1 = false :=
  ⟨rfl, rfl, rfl, rfl⟩

/-- C9 amended: on a mapping input, `prepare_problem` fails with `ValueError`
(not `QiskitNatureError`) exactly when the main entry is absent or maps to an
absent value, succeeds with the converted main operator otherwise, and in all
cases removes the main entry from the mapping as a side effect. -/
theorem c9_prepare_main_operator {Op : Type} (convert : Op → Op) (name : String)
    (m : List (String × Option Op)) :
    ((odGet name m).join = none →
      (prepare_problem convert name (.mapping m)).1 =
        .error (.valueError "The main SecondQuantizedOp cannot be None.")) ∧
    (∀ op, (odGet name m).join = some op →
      (prepare_problem convert name (.mapping m)).1 = .ok (convert op)) ∧
    (prepare_problem convert name (.mapping m)).2 = .mapping (dropKey name m) := by
  refine ⟨?_, ?_, ?_⟩
  · intro h
    simp only [prepare_problem, dictPop_fst, h]
  · intro op h
    simp only [prepare_problem, dictPop_fst, h]
  · simp only [prepare_problem, dictPop_fst, dictPop_snd]
    cases (odGet name m).join <;> rfl

/-- C9 witness: the amended behavior at a concrete mapping lacking the main
entry. -/
theorem c9_prepare_main_operator_witness :
    (odGet "B" [("A", some ())]).join = none ∧
    (@prepare_problem Unit id "B" (.mapping [("A", some ())])).1 =
      .error (.valueError "The main SecondQuantizedOp cannot be None.") ∧
    (@prepare_problem Unit id "B" (.mapping [("A", some ())])).2 =
      .mapping (dropKey "B" [("A", some ())]) :=
  ⟨rfl, (c9_prepare_main_operator id "B" [("A", some ())]).1 rfl,
    (c9_prepare_main_operator id "B" [("A", some ())]).2.2⟩

/-- C10: with a `WindowExtrapolator` supplied, an explicit `num_bootstrap = k`
(`k ≥ 2`) makes the constructor overwrite the caller-supplied extrapolator's
`window` with `k` (the caller's object stays modified after construction),
while `num_bootstrap = None` leaves the extrapolator's window untouched and
defaults the sampler's own bootstrap number to 2. -/
theorem c10_extrapolator_window_mutation (a : InitArgs) (w0 : Int)
    (he : a.extrapolator = some (.windowExt w0)) :
    (∀ k : Int, a.numBootstrap = some k → 2 ≤ k →
      ∃ o, bopesInit a = .ok o ∧ o.extrapolator = some (.windowExt k) ∧
        o.numBootstrap = some k) ∧
    (a.numBootstrap = none →
      ∃ o, bopesInit a = .ok o ∧ o.extrapolator = some (.windowExt w0) ∧
        o.numBootstrap = some 2) := by
  constructor
  · intro k hk h2
    simp only [bopesInit, he, hk]
    rw [if_pos h2]
    exact ⟨_, rfl, rfl, rfl⟩
  · intro hk
    simp only [bopesInit, he, hk]
    exact ⟨_, rfl, rfl, rfl⟩

/-- C10 witness: a window-5 extrapolator with `num_bootstrap = 3` comes out
of construction with window 3, and with `num_bootstrap = None` it keeps
window 5 while the sampler's bootstrap number defaults to 2. -/
theorem c10_extrapolator_window_mutation_witness :
    argsWin.extrapolator = some (.windowExt 5) ∧
    argsWin.numBootstrap = some 3 ∧
    (∃ o, bopesInit argsWin = .ok o ∧ o.extrapolator = some (.windowExt 3) ∧
      o.numBootstrap = some 3) ∧
    argsWinNone.extrapolator = some (.windowExt 5) ∧
    argsWinNone.numBootstrap = none ∧
    (∃ o, bopesInit argsWinNone = .ok o ∧ o.extrapolator = some (.windowExt 5) ∧
      o.numBootstrap = some 2) :=
  ⟨rfl, rfl,
    (c10_extrapolator_window_mutation argsWin 5 rfl).1 3 rfl (by decide),
    rfl, rfl,
    (c10_extrapolator_window_mutation argsWinNone 5 rfl).2 rfl⟩

/-- C2: when the resolved solver is variational and bootstrapping is enabled,
the value of the solver's initial-point field at the moment of each solve call
equals the warm-start strategy's output for that point as the specification
words it, and on the first point of a sweep (history empty, no warm-start
write) it equals the sampler's saved initial point restored at the top of the
sweep. -/
theorem c2_initial_point_before_solve (env : Env)
    (hv : env.isVariational = true) (hb : env.bootstrap = true) :
    (∀ st point, (runSinglePoint env st point).usedInitialPoint =
      match initialPointSpec env point st.history with
      | none => st.initialPoint
      | some v => v) ∧
    (∀ saved st p ps,
      ((runPoints env saved st (p :: ps)).steps.head?).map (fun o => o.usedInitialPoint) =
        some saved) := by
  constructor
  · intro st point
    exact runSinglePoint_usedInitialPoint env st point hv hb
  · intro saved st p ps
    have hstart : startState env saved st = { initialPoint := saved, history := [] } := by
      simp [startState, hv]
    simp only [runPoints, runPointsAux, hstart, List.head?_cons, Option.map_some']
    unfold runSinglePoint
    rw [warmStart_of_empty env _ p rfl]

/-- C2 witness: the statement at the concrete variational bootstrap-enabled
environment. -/
theorem c2_initial_point_before_solve_witness :
    envNoExt.isVariational = true ∧ envNoExt.bootstrap = true ∧
    ((∀ st point, (runSinglePoint envNoExt st point).usedInitialPoint =
      match initialPointSpec envNoExt point st.history with
      | none => st.initialPoint
      | some v => v) ∧
    (∀ saved st p ps,
      ((runPoints envNoExt saved st (p :: ps)).steps.head?).map (fun o => o.usedInitialPoint) =
        some saved)) :=
  ⟨rfl, rfl, c2_initial_point_before_solve envNoExt rfl rfl⟩

/-- C6: with a variational solver, the point history is cleared at the top of
every sweep, so a sweep's outcome does not depend on the state left behind by
any earlier sweep on the same sampler: two runs from arbitrary prior states
coincide. -/
theorem c6_history_reset (env : Env) (hv : env.isVariational = true) :
    (∀ saved st, (startState env saved st).history = []) ∧
    (∀ saved st1 st2 pts, runPoints env saved st1 pts = runPoints env saved st2 pts) := by
  constructor
  · intro saved st
    simp [startState, hv]
  · intro saved st1 st2 pts
    simp [runPoints, startState, hv]

/-- C6 witness: the statement at the concrete variational environment. -/
theorem c6_history_reset_witness :
    envNoExt.isVariational = true ∧
    ((∀ saved st, (startState envNoExt saved st).history = []) ∧
    (∀ saved st1 st2 pts, runPoints envNoExt saved st1 pts = runPoints envNoExt saved st2 pts)) :=
  ⟨rfl, c6_history_reset envNoExt rfl⟩

/-- C8: with a non-variational solver, no warm-start decision is taken at any
point of the sweep and the state (in particular the point history) is left
exactly as it was, regardless of the bootstrap flag. -/
theorem c8_nonvariational_bypass (env : Env) (saved : Option Params) (st : RunState)
    (pts : List ℚ) (h : env.isVariational = false) :
    (∀ o ∈ (runPoints env saved st pts).steps, o.decision = .skip ∧ o.st = st) ∧
    (runPoints env saved st pts).final = st := by
  have hstart : startState env saved st = st := by simp [startState, h]
  have hmain := runPointsAux_nonvar env h pts (startState env saved st)
  rw [hstart] at hmain
  refine ⟨fun o ho => hmain.2 o ?_, ?_⟩
  · simpa [runPoints, hstart] using ho
  · simpa [runPoints, hstart] using hmain.1

/-- C8 witness: the statement at a concrete non-variational environment and a
concrete sweep. -/
theorem c8_nonvariational_bypass_witness :
    envPlain.isVariational = false ∧
    ((∀ o ∈ (runPoints envPlain none { initialPoint := none, history := [] } [1, 2]).steps,
      o.decision = .skip ∧ o.st = { initialPoint := none, history := [] }) ∧
    (runPoints envPlain none { initialPoint := none, history := [] } [1, 2]).final =
      { initialPoint := none, history := [] }) :=
  ⟨rfl, c8_nonvariational_bypass envPlain none { initialPoint := none, history := [] } [1, 2] rfl⟩

/-- C3: in nearest-neighbor mode (variational solver, bootstrap enabled,
non-empty history whose size does not exceed the effective window), the
initial parameter guess supplied to the solver is the stored vector of a
history key whose Euclidean distance to the query point is minimal, and every
strictly earlier history entry is strictly farther (first-on-tie in insertion
order). -/
theorem c3_nearest_neighbor_choice (env : Env) (st : RunState) (point : ℚ)
    (hv : env.isVariational = true) (hb : env.bootstrap = true)
    (hne : st.history ≠ [])
    (hw : (st.history.length : Int) ≤ nBootOf env st.history.length) :
    ∃ (i : Nat) (hi : i < st.history.length),
      (runSinglePoint env st point).usedInitialPoint = some (st.history.get ⟨i, hi⟩).2 ∧
      (∀ j (hj : j < st.history.length),
        absDist point (st.history.get ⟨i, hi⟩).1 ≤ absDist point (st.history.get ⟨j, hj⟩).1) ∧
      (∀ j (hj : j < i),
        absDist point (st.history.get ⟨i, hi⟩).1 <
          absDist point (st.history.get ⟨j, Nat.lt_trans hj hi⟩).1) := by
  cases hh : st.history with
  | nil => exact absurd hh hne
  | cons kv rest =>
    have hused : (runSinglePoint env st point).usedInitialPoint =
        some (nnFold point kv rest).2 := by
      rw [runSinglePoint_used, warmStart_nn env st point hv hb kv rest hh hw]
    have hi : argminIdx ((kv :: rest).map (fun kv => absDist point kv.1)) < (kv :: rest).length := by
      have h0 := argminIdx_lt ((kv :: rest).map (fun kv => absDist point kv.1)) (by simp)
      rwa [List.length_map] at h0
    refine ⟨_, hi, ?_, ?_, ?_⟩
    · rw [hused, nnFold_eq_argmin point rest kv, List.getD_eq_get _ _ hi]
    · intro j hj
      have h := argminIdx_le ((kv :: rest).map (fun kv => absDist point kv.1)) j
        (by rw [List.length_map]; exact hj)
      rwa [getD_dist point _ _ hi, getD_dist point _ _ hj] at h
    · intro j hj
      have hji : j < (kv :: rest).length := Nat.lt_trans hj hi
      have h := argminIdx_first _ j hj
      rwa [getD_dist point _ _ hi, getD_dist point _ _ hji] at h

/-- C3 witness: the nearest-neighbor characterization at the specification's
example history with keys 1 and 3 and stored vectors `[5]` and `[7]`. -/
theorem c3_nearest_neighbor_choice_witness :
    envNoExt.isVariational = true ∧ envNoExt.bootstrap = true ∧
    stH.history ≠ [] ∧
    ((stH.history.length : Int) ≤ nBootOf envNoExt stH.history.length) ∧
    (∃ (i : Nat) (hi : i < stH.history.length),
      (runSinglePoint envNoExt stH 2).usedInitialPoint = some (stH.history.get ⟨i, hi⟩).2 ∧
      (∀ j (hj : j < stH.history.length),
        absDist 2 (stH.history.get ⟨i, hi⟩).1 ≤ absDist 2 (stH.history.get ⟨j, hj⟩).1) ∧
      (∀ j (hj : j < i),
        absDist 2 (stH.history.get ⟨i, hi⟩).1 <
          absDist 2 (stH.history.get ⟨j, Nat.lt_trans hj hi⟩).1)) :=
  ⟨rfl, rfl, by simp [stH], by simp [stH, nBootOf, envNoExt],
    c3_nearest_neighbor_choice envNoExt stH 2 rfl rfl (by simp [stH])
      (by simp [stH, nBootOf, envNoExt])⟩

/-- C4: with a non-empty history of size `n` (variational solver, bootstrap
enabled): with no extrapolator the warm start is always a nearest-neighbor
lookup; with an extrapolator and a configured bootstrap count `w`, the warm
start is a nearest-neighbor lookup exactly when `n ≤ w` and a delegation to
the extrapolation capability — called with the single target point and the
full history — exactly when `n > w`. -/
theorem c4_bootstrap_crossover (env : Env) (st : RunState) (point : ℚ)
    (hv : env.isVariational = true) (hb : env.bootstrap = true)
    (hne : st.history ≠ []) :
    (env.extrapolator = none → ∃ v, (runSinglePoint env st point).decision = .nn v) ∧
    (∀ e w, env.extrapolator = some e → env.numBootstrap = some w →
      (((st.history.length : Int) ≤ w →
        ∃ v, (runSinglePoint env st point).decision = .nn v) ∧
      (w < (st.history.length : Int) →
        (runSinglePoint env st point).decision =
          .extrap (odGet point (env.extrapolate point st.history))))) := by
  obtain ⟨kv, rest, hh⟩ : ∃ kv rest, st.history = kv :: rest := by
    cases hcase : st.history with
    | nil => exact absurd hcase hne
    | cons a l => exact ⟨a, l, rfl⟩
  refine ⟨?_, ?_⟩
  · intro hext
    have hw : (st.history.length : Int) ≤ nBootOf env st.history.length := by
      simp [nBootOf, hext]
    rw [runSinglePoint_decision, warmStart_nn env st point hv hb kv rest hh hw]
    exact ⟨_, rfl⟩
  · intro e w he hnb
    have hnBoot : nBootOf env st.history.length = w := by simp [nBootOf, he, hnb]
    constructor
    · intro hle
      have hw : (st.history.length : Int) ≤ nBootOf env st.history.length := by
        rw [hnBoot]; exact hle
      rw [runSinglePoint_decision, warmStart_nn env st point hv hb kv rest hh hw]
      exact ⟨_, rfl⟩
    · intro hgt
      have hw : ¬((st.history.length : Int) ≤ nBootOf env st.history.length) := by
        rw [hnBoot]; exact not_le.mpr hgt
      rw [runSinglePoint_decision, warmStart_extrap env st point hv hb hne hw]

/-- C4 witness: with a window-2 extrapolator, a 2-point history (the third
point of a sweep) takes the nearest-neighbor branch and a 3-point history
(the fourth point) delegates to the extrapolator. -/
theorem c4_bootstrap_crossover_witness :
    envWin2.isVariational = true ∧ envWin2.bootstrap = true ∧
    stH2.history ≠ [] ∧ stH3.history ≠ [] ∧
    envWin2.extrapolator = some (.windowExt 2) ∧ envWin2.numBootstrap = some 2 ∧
    (∃ v, (runSinglePoint envWin2 stH2 4).decision = .nn v) ∧
    (runSinglePoint envWin2 stH3 4).decision =
      .extrap (odGet 4 (envWin2.extrapolate 4 stH3.history)) :=
  ⟨rfl, rfl, by simp [stH2], by simp [stH3], rfl, rfl,
    ((c4_bootstrap_crossover envWin2 stH2 4 rfl rfl (by simp [stH2])).2
      (.windowExt 2) 2 rfl rfl).1 (by simp [stH2]),
    ((c4_bootstrap_crossover envWin2 stH3 4 rfl rfl (by simp [stH3])).2
      (.windowExt 2) 2 rfl rfl).2 (by simp [stH3])⟩

theorem sample_points_def (env : Env) (saved : Option Params) (st : RunState) (pts : List ℚ) :
    (sample env saved st pts).1.points = odKeys (rawOf (runPoints env saved st pts)) := rfl

theorem sample_energies_def (env : Env) (saved : Option Params) (st : RunState) (pts : List ℚ) :
    (sample env saved st pts).1.energies =
      (rawOf (runPoints env saved st pts)).map (fun kv => kv.2.totalEnergies.headD 0) := rfl

theorem sample_raw_def (env : Env) (saved : Option Params) (st : RunState) (pts : List ℚ) :
    (sample env saved st pts).1.rawResults = rawOf (runPoints env saved st pts) := rfl

/-- C5: the returned result's point sequence is exactly the raw result map's
key order, which is the evaluation order of first occurrence of the
caller-supplied points (not sorted, duplicates collapsed onto their first
position); the keys are pairwise distinct; and the energies sequence is
parallel to it, entry `i` being the first-listed total energy of the raw
result stored for point `i`. -/
theorem c5_result_order (env : Env) (saved : Option Params) (st : RunState) (pts : List ℚ) :
    (sample env saved st pts).1.points = odKeys (rawOf (runPoints env saved st pts)) ∧
    (sample env saved st pts).1.points = firstOccur pts ∧
    (sample env saved st pts).1.points.Nodup ∧
    (sample env saved st pts).1.energies.length = (sample env saved st pts).1.points.length ∧
    (∀ (i : Nat) (k : ℚ) (r : EigenstateResult),
      (sample env saved st pts).1.points.get? i = some k →
      odGet k (sample env saved st pts).1.rawResults = some r →
      ∀ e es, r.totalEnergies = e :: es →
        (sample env saved st pts).1.energies.get? i = some e) := by
  have hfo : odKeys (rawOf (runPoints env saved st pts)) = firstOccur pts := by
    rw [rawOf, odKeys_odOfWrites]
    congr 1
    rw [traceOf, List.map_map]
    exact runPointsAux_points env pts (startState env saved st)
  have hnd : (odKeys (rawOf (runPoints env saved st pts))).Nodup := by
    rw [rawOf, odKeys_odOfWrites]
    exact firstOccur_nodup _
  refine ⟨sample_points_def env saved st pts,
    (sample_points_def env saved st pts).trans hfo,
    by rw [sample_points_def env saved st pts]; exact hnd, ?_, ?_⟩
  · rw [sample_points_def env saved st pts, sample_energies_def env saved st pts, odKeys,
      List.length_map, List.length_map]
  · intro i k r hk hr e es hE
    rw [sample_points_def env saved st pts, odKeys, List.get?_map] at hk
    obtain ⟨kv0, hkv0, hk1⟩ := Option.map_eq_some'.mp hk
    obtain ⟨hilt, hget⟩ := List.get?_eq_some.mp hkv0
    rw [sample_raw_def env saved st pts] at hr
    have hod : odGet k (rawOf (runPoints env saved st pts)) = some kv0.2 := by
      rw [← hk1, ← hget]
      exact odGet_get_of_nodup _ hnd i hilt
    have hrr : r = kv0.2 := by
      rw [hod] at hr
      exact (Option.some.injEq _ _ ▸ hr).symm
    rw [sample_energies_def env saved st pts, List.get?_map, hkv0]
    rw [hrr] at hE
    simp [hE]

/-- C5 witness: sampling three distinct unsorted points keeps their order, and
the first energy entry is the first-listed total energy of the first point's
stored raw result. -/
theorem c5_result_order_witness :
    (sample envPlain none { initialPoint := none, history := [] } [5, 7, 6]).1.points =
      firstOccur [5, 7, 6] ∧
    (sample envPlain none { initialPoint := none, history := [] } [5, 7, 6]).1.points.get? 0 =
      some 5 ∧
    odGet 5 (sample envPlain none { initialPoint := none, history := [] } [5, 7, 6]).1.rawResults =
      some { totalEnergies := [5], optimalPoint := [5] } ∧
    (sample envPlain none { initialPoint := none, history := [] } [5, 7, 6]).1.energies.get? 0 =
      some 5 :=
  ⟨(c5_result_order envPlain none { initialPoint := none, history := [] } [5, 7, 6]).2.1,
    rfl, rfl,
    (c5_result_order envPlain none { initialPoint := none, history := [] } [5, 7, 6]).2.2.2.2
      0 5 { totalEnergies := [5], optimalPoint := [5] } rfl rfl 5 [] rfl⟩

/-- C7: a sweep's raw result map has one entry per distinct evaluated point
(keys pairwise distinct), each equal to the result of the last evaluation of
that point in the evaluation sequence; with a variational solver the point
history likewise holds the optimal parameters of the last evaluation of each
point. -/
theorem c7_last_write_wins (env : Env) (saved : Option Params) (st : RunState)
    (pts : List ℚ) (hv : env.isVariational = true) :
    (traceOf (runPoints env saved st pts)).map Prod.fst = pts ∧
    (∀ p, odGet p (rawOf (runPoints env saved st pts)) =
      lastWrite p (traceOf (runPoints env saved st pts))) ∧
    (odKeys (rawOf (runPoints env saved st pts))).Nodup ∧
    (∀ p, odGet p (runPoints env saved st pts).final.history =
      (lastWrite p (traceOf (runPoints env saved st pts))).map (fun r => r.optimalPoint)) := by
  refine ⟨?_, ?_, ?_, ?_⟩
  · rw [traceOf, List.map_map]
    exact runPointsAux_points env pts (startState env saved st)
  · intro p
    rw [rawOf, odGet_odOfWrites]
  · rw [rawOf, odKeys_odOfWrites]
    exact firstOccur_nodup _
  · intro p
    have hsh : (startState env saved st).history = [] := by simp [startState, hv]
    have hh := runPointsAux_var_history env hv pts (startState env saved st)
    rw [hsh] at hh
    have hfin : (runPoints env saved st pts).final.history =
        odOfWrites ((traceOf (runPoints env saved st pts)).map
          (fun kv => (kv.1, kv.2.optimalPoint))) := by
      rw [traceOf, List.map_map]
      exact hh
    rw [hfin, odGet_odOfWrites, lastWrite_map_snd]

/-- C7 witness: the statement at the concrete variational environment and the
duplicate sweep `[1, 1]`. -/
theorem c7_last_write_wins_witness :
    envNoExt.isVariational = true ∧
    ((traceOf (runPoints envNoExt none { initialPoint := none, history := [] } [1, 1])).map
        Prod.fst = [1, 1] ∧
    (∀ p, odGet p (rawOf (runPoints envNoExt none { initialPoint := none, history := [] } [1, 1])) =
      lastWrite p (traceOf (runPoints envNoExt none { initialPoint := none, history := [] } [1, 1]))) ∧
    (odKeys (rawOf (runPoints envNoExt none { initialPoint := none, history := [] } [1, 1]))).Nodup ∧
    (∀ p, odGet p (runPoints envNoExt none { initialPoint := none, history := [] } [1, 1]).final.history =
      (lastWrite p (traceOf (runPoints envNoExt none { initialPoint := none, history := [] } [1, 1]))).map
        (fun r => r.optimalPoint))) :=
  ⟨rfl, c7_last_write_wins envNoExt none { initialPoint := none, history := [] } [1, 1] rfl⟩

/-! ### Concrete evaluations of the specification's worked examples -/

/-- With history keys 1 and 3 holding `[5]` and `[7]`, the guess for the
query point 1.4 is `[5]` (the specification's nearest-neighbor example). -/
theorem nn_example_closer_left :
    (runSinglePoint envNoExt stH (7/5)).usedInitialPoint = some [5] := by
  norm_num [runSinglePoint, warmStart, nBootOf, envNoExt, stH, argminIdx, minD, absDist, abs, odGet]

/-- With the same history, the guess for the query point 2.8 is `[7]`. -/
theorem nn_example_closer_right :
    (runSinglePoint envNoExt stH (14/5)).usedInitialPoint = some [7] := by
  norm_num [runSinglePoint, warmStart, nBootOf, envNoExt, stH, argminIdx, minD, absDist, abs, odGet]

/-- With a window-2 extrapolator and 2 points in history (the 3rd point of a
sweep), the warm start is a nearest-neighbor lookup. -/
theorem crossover_example_third_point :
    (runSinglePoint envWin2 stH2 4).decision = .nn (some [2]) := by
  norm_num [runSinglePoint, warmStart, nBootOf, envWin2, envNoExt, stH2, argminIdx, minD, absDist,
    abs, odGet]

/-- With a window-2 extrapolator and 3 points in history (the 4th point of a
sweep), the warm start delegates to the extrapolation capability. -/
theorem crossover_example_fourth_point :
    (runSinglePoint envWin2 stH3 4).decision = .extrap none := by
  norm_num [runSinglePoint, warmStart, nBootOf, envWin2, envNoExt, stH3, argminIdx, minD, absDist,
    abs, odGet]

/-- Sampling the unsorted points 0.5, 0.7, 0.6 returns them in exactly that
order. -/
theorem order_example_unsorted :
    (sample envPlain none { initialPoint := none, history := [] }
      [1/2, 7/10, 3/5]).1.points = [1/2, 7/10, 3/5] := by
  norm_num [sample, runPoints, runPointsAux, runSinglePoint, warmStart, startState, envPlain,
    envNoExt, rawOf, traceOf, odOfWrites, odInsert, odKeys, firstOccur]

/-- Sampling `[1, 1]` yields exactly one raw-map entry for the point 1,
holding the second evaluation's result (the warm-started one, recognizable
here by its shifted energy). -/
theorem duplicate_example_last_write :
    (sample envDup none { initialPoint := none, history := [] } [1, 1]).1.rawResults =
      [(1, { totalEnergies := [101], optimalPoint := [1] })] := by
  norm_num [sample, runPoints, runPointsAux, runSinglePoint, warmStart, startState, envDup,
    envNoExt, nBootOf, argminIdx, minD, absDist, abs, odGet, rawOf, traceOf, odOfWrites,
    odInsert, odKeys]

end BOPES
